import Mathlib

/-!
Verification of the waveform audio visualizer (`src/waveform.py`).

The embedding models the scalar values flowing through the program
(IEEE-style floats with NaN and signed infinities) as the inductive type
`RVal` over the real numbers, buffers as lists, and the producer/consumer
hand-off (`audio_q`, `latest_data_chunk`, `last_rms_dbfs`,
`new_data_available`) as an explicit state record with one transition per
side: `audio_callback` (the capture callback, lines 55-63) and
`consumeLatest` (the render-loop drain, lines 150-161).
-/

namespace Waveform

noncomputable section

/-- A scalar value as the Python/numpy code sees it: NaN, -inf, +inf, or a
finite real.  Rounding of finite values is not modelled; NaN and infinity
propagation and comparison semantics are. -/
inductive RVal where
  | nan : RVal
  | ninf : RVal
  | pinf : RVal
  | fin : ℝ → RVal

/-- IEEE `<` comparison: any comparison with NaN is false; -inf is below
every non-NaN value other than itself; +inf is above every non-NaN value
other than itself. -/
def rlt : RVal → RVal → Bool
  | .nan, _ => false
  | _, .nan => false
  | .ninf, .ninf => false
  | .ninf, _ => true
  | _, .ninf => false
  | .pinf, _ => false
  | _, .pinf => true
  | .fin x, .fin y => decide (x < y)

/-- The non-NaN values viewed as extended reals (NaN, which is not a
loudness level, is mapped to an arbitrary value and excluded by
hypothesis where it matters). -/
def RVal.toEReal : RVal → EReal
  | .nan => 0
  | .ninf => ⊥
  | .pinf => ⊤
  | .fin x => (x : EReal)

/-- Constant `COLOR_THRESHOLDS_DB = [-45, -30, -15]` (waveform.py line 20). -/
def COLOR_THRESHOLDS_DB : List ℝ := [-45, -30, -15]

/-- Constant `COLOR_PALETTE` (waveform.py lines 21-26): White, Yellow, Orange, Red. -/
def COLOR_PALETTE : List (ℕ × ℕ × ℕ) :=
  [(255, 255, 255), (255, 255, 0), (255, 165, 0), (255, 0, 0)]

/-- Embedding of `get_waveform_color` (waveform.py lines 72-81): the if/elif/else chain
over the three thresholds. -/
def get_waveform_color (rms_dbfs : RVal) : ℕ × ℕ × ℕ :=
  if rlt rms_dbfs (.fin (COLOR_THRESHOLDS_DB.getD 0 0)) then COLOR_PALETTE.getD 0 (0, 0, 0)
  else if rlt rms_dbfs (.fin (COLOR_THRESHOLDS_DB.getD 1 0)) then COLOR_PALETTE.getD 1 (0, 0, 0)
  else if rlt rms_dbfs (.fin (COLOR_THRESHOLDS_DB.getD 2 0)) then COLOR_PALETTE.getD 2 (0, 0, 0)
  else COLOR_PALETTE.getD 3 (0, 0, 0)

/-- The same if/elif/else chain as `get_waveform_color`, with the three
threshold constants as parameters (the spec calls the threshold list
configuration) and returning the tier index instead of the palette entry. -/
def colorTier (t0 t1 t2 : ℝ) (x : RVal) : ℕ :=
  if rlt x (.fin t0) then 0
  else if rlt x (.fin t1) then 1
  else if rlt x (.fin t2) then 2
  else 3

/-- Elementwise square (`data_chunk**2`): NaN propagates, both infinities
square to +inf. -/
def RVal.sq : RVal → RVal
  | .nan => .nan
  | .ninf => .pinf
  | .pinf => .pinf
  | .fin x => .fin (x ^ 2)

/-- IEEE addition restricted to what the program exercises: NaN propagates,
inf + (-inf) is NaN, an infinity absorbs finite values. -/
def RVal.add : RVal → RVal → RVal
  | .nan, _ => .nan
  | _, .nan => .nan
  | .ninf, .pinf => .nan
  | .pinf, .ninf => .nan
  | .ninf, _ => .ninf
  | _, .ninf => .ninf
  | .pinf, _ => .pinf
  | _, .pinf => .pinf
  | .fin x, .fin y => .fin (x + y)

/-- Sum of a buffer (the reduction inside `np.mean`). -/
def RVsum (l : List RVal) : RVal := l.foldr RVal.add (.fin 0)

/-- Division by a positive natural count (the `/ n` inside `np.mean`);
only invoked with `n ≥ 1`. -/
def RVal.divPos : RVal → ℕ → RVal
  | .nan, _ => .nan
  | .ninf, _ => .ninf
  | .pinf, _ => .pinf
  | .fin x, n => .fin (x / n)

/-- Embedding of `np.mean`: sum divided by length; the mean of an empty array is NaN. -/
def npMean (l : List RVal) : RVal :=
  if l.length = 0 then .nan else (RVsum l).divPos l.length

/-- Embedding of `np.sqrt`: NaN on NaN and on negative arguments (including -inf),
+inf on +inf, the real square root on nonnegative finite arguments. -/
def npSqrt : RVal → RVal
  | .nan => .nan
  | .ninf => .nan
  | .pinf => .pinf
  | .fin x => if x < 0 then .nan else .fin (Real.sqrt x)

/-- Embedding of `np.log10`: NaN on NaN and negative arguments (including -inf),
+inf on +inf, -inf at zero, the base-10 logarithm on positive finite
arguments. -/
def npLog10 : RVal → RVal
  | .nan => .nan
  | .ninf => .nan
  | .pinf => .pinf
  | .fin x => if x < 0 then .nan else if x = 0 then .ninf else .fin (Real.logb 10 x)

/-- Multiplication by a positive finite constant (the leading `20 *`);
only used with `c = 20`. -/
def RVal.scale (c : ℝ) : RVal → RVal
  | .nan => .nan
  | .ninf => .ninf
  | .pinf => .pinf
  | .fin x => .fin (c * x)

/-- Embedding of `calculate_rms_dbfs` (waveform.py lines 65-70):
`20 * log10(sqrt(mean(data_chunk**2)) + 1e-10)`. -/
def calculate_rms_dbfs (data_chunk : List RVal) : RVal :=
  let epsilon : ℝ := 1e-10
  let rms_linear := npSqrt (npMean (data_chunk.map RVal.sq))
  let rms_dbfs := (npLog10 (rms_linear.add (.fin epsilon))).scale 20
  rms_dbfs

/-- Constant `CHUNK_SIZE = 1024` (waveform.py line 11). -/
def CHUNK_SIZE : ℕ := 1024

/-- The shared state between the audio callback and the render loop
(waveform.py lines 29-34): the FIFO `audio_q`, the sticky
`latest_data_chunk` and `last_rms_dbfs`, and the `new_data_available`
flag. -/
structure BridgeState where
  audio_q : List (List RVal)
  latest_data_chunk : List RVal
  last_rms_dbfs : RVal
  new_data_available : Bool

/-- The initial global state (waveform.py lines 30-33): empty queue,
zero-filled chunk of length `CHUNK_SIZE`, `-inf` loudness, flag down. -/
def initState : BridgeState :=
  { audio_q := []
    latest_data_chunk := List.replicate CHUNK_SIZE (.fin 0)
    last_rms_dbfs := .ninf
    new_data_available := false }

/-- Embedding of `audio_callback` (waveform.py lines 55-63), the bridge's submit: puts
the chunk on the queue and raises the flag. -/
def audio_callback (indata : List RVal) (s : BridgeState) : BridgeState :=
  { s with audio_q := s.audio_q ++ [indata], new_data_available := true }

/-- The drain loop `while not audio_q.empty(): latest_data_chunk = audio_q.get_nowait()`
loop (waveform.py lines 154-155): keep the last queued chunk, or the
previously held chunk when the queue is empty. -/
def drainQueue : List (List RVal) → List RVal → List RVal
  | [], latest => latest
  | c :: rest, _ => drainQueue rest c

/-- The render loop's poll (waveform.py lines 150-161), the bridge's
consumeLatest: when the flag is up, drain the queue to its newest chunk,
recompute the loudness, lower the flag, and hand the chunk to the caller;
otherwise report no new data and leave the state untouched. -/
def consumeLatest (s : BridgeState) : Option (List RVal) × BridgeState :=
  if s.new_data_available then
    let latest := drainQueue s.audio_q s.latest_data_chunk
    (some latest,
     { audio_q := []
       latest_data_chunk := latest
       last_rms_dbfs := calculate_rms_dbfs latest
       new_data_available := false })
  else (none, s)

/-- Python `int()` applied to a real value: truncation toward zero. -/
def pyInt (x : ℝ) : ℤ := if 0 ≤ x then ⌊x⌋ else ⌈x⌉

/-- Embedding of `max(-1.0, min(1.0, amplitude))` (waveform.py line 96). -/
def clampAmp (a : ℝ) : ℝ := max (-1) (min 1 a)

/-- Embedding of `generate_waveform_points` (waveform.py lines 83-107): one `(x, y)`
point per sample, with the single point duplicated when only one sample
exists.  `WIDTH`/`HEIGHT` are pixel counts, hence naturals. -/
def generate_waveform_points (data_chunk : List ℝ) (width height : ℕ) : List (ℤ × ℤ) :=
  let num_samples := data_chunk.length
  if num_samples = 0 then []
  else
    let max_amplitude : ℝ := height / 2
    let center_y : ℝ := height / 2
    let x_scale : ℝ := if num_samples > 1 then width / ((num_samples : ℝ) - 1) else width
    let points := data_chunk.enum.map fun p =>
      (pyInt (p.1 * x_scale), pyInt (center_y - clampAmp p.2 * max_amplitude))
    if points.length = 1 then points ++ [points.headI] else points

/-- Draining a queue that ends in `b` yields `b`, whatever was held before. -/
theorem drainQueue_append_singleton (q : List (List RVal)) (b x : List RVal) :
    drainQueue (q ++ [b]) x = b := by
  induction q generalizing x with
  | nil => rfl
  | cons c rest ih => simpa [drainQueue] using ih c

/-- C1: last-write-wins and empty-poll behaviour of the bridge.  After
`submit A` then `submit B` with no consume in between, the next
`consumeLatest` returns `B`; and a `consumeLatest` before any submit (the
initial state) returns no new data and leaves the state, in particular the
previously held buffer, unchanged. -/
theorem bridge_last_write_wins_and_empty_poll :
    (∀ (s : BridgeState) (A B : List RVal),
      (consumeLatest (audio_callback B (audio_callback A s))).1 = some B) ∧
    (consumeLatest initState).1 = none ∧ (consumeLatest initState).2 = initState := by
  refine ⟨fun s A B => ?_, ?_, ?_⟩
  · have h := drainQueue_append_singleton (s.audio_q ++ [A]) B s.latest_data_chunk
    simp only [List.append_assoc, List.singleton_append] at h
    simp [consumeLatest, audio_callback, h]
  · simp [consumeLatest, initState]
  · simp [consumeLatest, initState]

/-- C2 counterexample: two submits with no consume in between leave TWO
stored unconsumed buffers — the callback appends to the queue, it does not
replace the stored buffer, so the count of stored buffers exceeds one. -/
theorem bridge_two_submits_store_two_buffers :
    (audio_callback [RVal.fin 1] (audio_callback [RVal.fin 0] initState)).audio_q
      = [[RVal.fin 0], [RVal.fin 1]] ∧
    ¬ (audio_callback [RVal.fin 1]
        (audio_callback [RVal.fin 0] initState)).audio_q.length ≤ 1 := by
  constructor
  · simp [audio_callback, initState]
  · simp [audio_callback, initState]

/-- C2 amended: submit appends to a FIFO queue (so several unconsumed
buffers can be stored between polls), and a consume after any submit
drains the queue completely and lowers the flag, so right after every
successful consume zero unconsumed buffers remain. -/
theorem bridge_queue_semantics :
    (∀ (s : BridgeState) (b : List RVal),
      (audio_callback b s).audio_q = s.audio_q ++ [b] ∧
      (audio_callback b s).new_data_available = true) ∧
    (∀ (s : BridgeState) (b : List RVal),
      (consumeLatest (audio_callback b s)).2.audio_q = [] ∧
      (consumeLatest (audio_callback b s)).2.new_data_available = false) := by
  refine ⟨fun s b => ⟨rfl, rfl⟩, fun s b => ?_⟩
  simp [consumeLatest, audio_callback]

/-- C3: consumption is idempotent.  After any submit, the first
`consumeLatest` returns a real buffer, and a second `consumeLatest` with
no submit in between returns no new data (the first consume cleared the
flag). -/
theorem consume_idempotent :
    ∀ (s : BridgeState) (b : List RVal),
      ((consumeLatest (audio_callback b s)).1).isSome = true ∧
      (consumeLatest ((consumeLatest (audio_callback b s)).2)).1 = none := by
  intro s b
  constructor
  · simp [consumeLatest, audio_callback]
  · simp [consumeLatest, audio_callback]

/-- IEEE `<` against a finite threshold agrees with the extended-real
strict order on non-NaN values. -/
theorem rlt_fin_iff (x : RVal) (hx : x ≠ RVal.nan) (t : ℝ) :
    rlt x (.fin t) = true ↔ RVal.toEReal x < (t : EReal) := by
  cases x with
  | nan => exact absurd rfl hx
  | ninf => simp [rlt, RVal.toEReal]
  | pinf => simp [rlt, RVal.toEReal]
  | fin y => simp [rlt, RVal.toEReal, EReal.coe_lt_coe_iff]

/-- A failed IEEE `<` against a finite threshold means the threshold is at
or below the value, on non-NaN values. -/
theorem rlt_fin_eq_false_iff (x : RVal) (hx : x ≠ RVal.nan) (t : ℝ) :
    rlt x (.fin t) = false ↔ (t : EReal) ≤ RVal.toEReal x := by
  rw [← not_lt, ← rlt_fin_iff x hx t]
  cases rlt x (.fin t) <;> simp

/-- Comparison against a finite threshold is monotone across non-NaN
values. -/
theorem rlt_fin_mono {x y : RVal} (hx : x ≠ RVal.nan) (hy : y ≠ RVal.nan)
    (hxy : RVal.toEReal x ≤ RVal.toEReal y) {t : ℝ} (h : rlt y (.fin t) = true) :
    rlt x (.fin t) = true := by
  rw [rlt_fin_iff x hx t]
  exact lt_of_le_of_lt hxy ((rlt_fin_iff y hy t).mp h)

/-- The configured threshold and palette entries, read off the lists. -/
theorem thresholds_getD_zero : COLOR_THRESHOLDS_DB.getD 0 0 = -45 := rfl

/-- Second threshold. -/
theorem thresholds_getD_one : COLOR_THRESHOLDS_DB.getD 1 0 = -30 := rfl

/-- Third threshold. -/
theorem thresholds_getD_two : COLOR_THRESHOLDS_DB.getD 2 0 = -15 := rfl

/-- First palette entry (White). -/
theorem palette_getD_zero : COLOR_PALETTE.getD 0 (0, 0, 0) = (255, 255, 255) := rfl

/-- Second palette entry (Yellow). -/
theorem palette_getD_one : COLOR_PALETTE.getD 1 (0, 0, 0) = (255, 255, 0) := rfl

/-- Third palette entry (Orange). -/
theorem palette_getD_two : COLOR_PALETTE.getD 2 (0, 0, 0) = (255, 165, 0) := rfl

/-- Fourth palette entry (Red). -/
theorem palette_getD_three : COLOR_PALETTE.getD 3 (0, 0, 0) = (255, 0, 0) := rfl

/-- C5: interval semantics of `get_waveform_color` at the configured
thresholds `[-45, -30, -15]`: each of the four palette colors is returned
exactly on its half-open interval, for every non-NaN input including
minus infinity. -/
theorem color_interval_semantics (x : RVal) (hx : x ≠ RVal.nan) :
    (RVal.toEReal x < ((-45 : ℝ) : EReal) ↔ get_waveform_color x = (255, 255, 255)) ∧
    (((-45 : ℝ) : EReal) ≤ RVal.toEReal x ∧ RVal.toEReal x < ((-30 : ℝ) : EReal) ↔
      get_waveform_color x = (255, 255, 0)) ∧
    (((-30 : ℝ) : EReal) ≤ RVal.toEReal x ∧ RVal.toEReal x < ((-15 : ℝ) : EReal) ↔
      get_waveform_color x = (255, 165, 0)) ∧
    (((-15 : ℝ) : EReal) ≤ RVal.toEReal x ↔ get_waveform_color x = (255, 0, 0)) := by
  have hc1 : ((-45 : ℝ) : EReal) < ((-30 : ℝ) : EReal) := by
    exact_mod_cast (by norm_num : (-45 : ℝ) < -30)
  have hc2 : ((-30 : ℝ) : EReal) < ((-15 : ℝ) : EReal) := by
    exact_mod_cast (by norm_num : (-30 : ℝ) < -15)
  simp only [get_waveform_color, thresholds_getD_zero, thresholds_getD_one,
    thresholds_getD_two, palette_getD_zero, palette_getD_one, palette_getD_two,
    palette_getD_three]
  cases hb1 : rlt x (.fin (-45)) with
  | true =>
    have h1 := (rlt_fin_iff x hx (-45)).mp hb1
    rw [if_pos rfl]
    exact ⟨iff_of_true h1 rfl,
      iff_of_false (fun hc => absurd h1 (not_lt.mpr hc.1)) (by decide),
      iff_of_false (fun hc => absurd (lt_trans h1 hc1) (not_lt.mpr hc.1)) (by decide),
      iff_of_false (fun hc => absurd (lt_trans (lt_trans h1 hc1) hc2) (not_lt.mpr hc))
        (by decide)⟩
  | false =>
    have h1 := (rlt_fin_eq_false_iff x hx (-45)).mp hb1
    rw [if_neg (by decide : ¬ false = true)]
    cases hb2 : rlt x (.fin (-30)) with
    | true =>
      have h2 := (rlt_fin_iff x hx (-30)).mp hb2
      rw [if_pos rfl]
      exact ⟨iff_of_false (fun hc => absurd hc (not_lt.mpr h1)) (by decide),
        iff_of_true ⟨h1, h2⟩ rfl,
        iff_of_false (fun hc => absurd h2 (not_lt.mpr hc.1)) (by decide),
        iff_of_false (fun hc => absurd (lt_trans h2 hc2) (not_lt.mpr hc)) (by decide)⟩
    | false =>
      have h2 := (rlt_fin_eq_false_iff x hx (-30)).mp hb2
      rw [if_neg (by decide : ¬ false = true)]
      cases hb3 : rlt x (.fin (-15)) with
      | true =>
        have h3 := (rlt_fin_iff x hx (-15)).mp hb3
        rw [if_pos rfl]
        exact ⟨iff_of_false (fun hc => absurd hc (not_lt.mpr (le_trans hc1.le h2)))
            (by decide),
          iff_of_false (fun hc => absurd hc.2 (not_lt.mpr h2)) (by decide),
          iff_of_true ⟨h2, h3⟩ rfl,
          iff_of_false (fun hc => absurd h3 (not_lt.mpr hc)) (by decide)⟩
      | false =>
        have h3 := (rlt_fin_eq_false_iff x hx (-15)).mp hb3
        rw [if_neg (by decide : ¬ false = true)]
        exact ⟨iff_of_false (fun hc => absurd hc (not_lt.mpr (le_trans hc1.le h2)))
            (by decide),
          iff_of_false (fun hc => absurd hc.2 (not_lt.mpr h2)) (by decide),
          iff_of_false (fun hc => absurd hc.2 (not_lt.mpr h3)) (by decide),
          iff_of_true h3 rfl⟩

/-- C5 witness at minus infinity: it is below -45 and classified White. -/
theorem color_interval_semantics_witness :
    RVal.toEReal RVal.ninf < ((-45 : ℝ) : EReal) ∧
    get_waveform_color RVal.ninf = (255, 255, 255) := by
  have hlt : RVal.toEReal RVal.ninf < ((-45 : ℝ) : EReal) := EReal.bot_lt_coe (-45)
  exact ⟨hlt, (color_interval_semantics RVal.ninf (fun h => nomatch h)).1.mp hlt⟩

/-- C8: `get_waveform_color` factors through the parametric tier function
at the configured thresholds; the tier function is total into the four
tiers; and for ascending thresholds it is monotone on non-NaN inputs:
a larger loudness never gets a smaller tier index. -/
theorem color_classifier_total_monotone :
    (∀ x : RVal,
      get_waveform_color x = COLOR_PALETTE.getD (colorTier (-45) (-30) (-15) x) (0, 0, 0)) ∧
    (∀ (t0 t1 t2 : ℝ) (x : RVal), colorTier t0 t1 t2 x < 4) ∧
    (∀ (t0 t1 t2 : ℝ), t0 ≤ t1 → t1 ≤ t2 →
      ∀ (x y : RVal), x ≠ RVal.nan → y ≠ RVal.nan →
        RVal.toEReal x ≤ RVal.toEReal y →
        colorTier t0 t1 t2 x ≤ colorTier t0 t1 t2 y) := by
  refine ⟨fun x => ?_, fun t0 t1 t2 x => ?_, fun t0 t1 t2 h01 h12 x y hx hy hxy => ?_⟩
  · simp only [get_waveform_color, colorTier, thresholds_getD_zero, thresholds_getD_one,
      thresholds_getD_two]
    split_ifs <;> rfl
  · unfold colorTier
    split_ifs <;> omega
  · unfold colorTier
    split_ifs <;>
      first
        | omega
        | exact absurd (rlt_fin_mono hx hy hxy (by assumption)) (by assumption)

/-- C8 witness: with the configured ascending thresholds, a level of -40
gets a tier no greater than a level of 0. -/
theorem color_classifier_total_monotone_witness :
    colorTier (-45) (-30) (-15) (RVal.fin (-40)) ≤ colorTier (-45) (-30) (-15) (RVal.fin 0) :=
  color_classifier_total_monotone.2.2 (-45) (-30) (-15) (by norm_num) (by norm_num)
    (RVal.fin (-40)) (RVal.fin 0) (fun h => nomatch h) (fun h => nomatch h)
    (EReal.coe_le_coe_iff.mpr (by norm_num))

/-- NaN absorbs addition on the left. -/
theorem add_nan_left (y : RVal) : RVal.add .nan y = .nan := by
  cases y <;> rfl

/-- NaN absorbs addition on the right. -/
theorem add_nan_right (x : RVal) : RVal.add x .nan = .nan := by
  cases x <;> rfl

/-- A buffer containing NaN sums to NaN. -/
theorem RVsum_eq_nan_of_mem (l : List RVal) (h : RVal.nan ∈ l) : RVsum l = RVal.nan := by
  induction l with
  | nil => cases h
  | cons a t ih =>
    rcases List.mem_cons.mp h with h1 | h2
    · rw [← h1]
      show RVal.add RVal.nan (RVsum t) = RVal.nan
      exact add_nan_left _
    · show RVal.add a (RVsum t) = RVal.nan
      rw [ih h2, add_nan_right]

/-- C10: a buffer containing a NaN sample makes `calculate_rms_dbfs`
return NaN, and `get_waveform_color` applied to NaN returns the highest
tier's color Red (every threshold comparison with NaN is false, so control
falls to the final else branch), not White. -/
theorem nan_buffer_maps_to_red (chunk : List RVal) (h : RVal.nan ∈ chunk) :
    calculate_rms_dbfs chunk = RVal.nan ∧ get_waveform_color RVal.nan = (255, 0, 0) := by
  constructor
  · have hm : RVal.nan ∈ chunk.map RVal.sq := by
      simpa using List.mem_map_of_mem RVal.sq h
    have hs : RVsum (chunk.map RVal.sq) = .nan := RVsum_eq_nan_of_mem _ hm
    have hlen : (chunk.map RVal.sq).length ≠ 0 := by
      have hp := List.length_pos_of_mem h
      simp only [List.length_map]
      omega
    simp [calculate_rms_dbfs, npMean, hlen, hs, RVal.divPos, npSqrt, add_nan_left,
      npLog10, RVal.scale]
  · rfl

/-- C10 witness: the singleton NaN buffer. -/
theorem nan_buffer_maps_to_red_witness :
    calculate_rms_dbfs [RVal.nan] = RVal.nan ∧
    get_waveform_color RVal.nan = (255, 0, 0) :=
  nan_buffer_maps_to_red [RVal.nan] (by simp)

/-- The spec's reference formula for the loudness level:
`20 * log10(rms + ε)` where `rms` is the root-mean-square of the samples
and `ε = 1e-10`. -/
def spec_level (l : List ℝ) : ℝ :=
  20 * Real.logb 10 (Real.sqrt ((l.map fun x => x ^ 2).sum / l.length) + 1e-10)

/-- Summing finitely many finite values stays finite and agrees with the
real sum. -/
theorem RVsum_map_fin (l : List ℝ) (f : ℝ → ℝ) :
    RVsum (l.map fun x => RVal.fin (f x)) = RVal.fin (l.map f).sum := by
  induction l with
  | nil => rfl
  | cons a t ih =>
    show RVal.add (RVal.fin (f a)) (RVsum (t.map fun x => RVal.fin (f x))) = _
    rw [ih]
    show RVal.fin (f a + (t.map f).sum) = _
    rw [List.map_cons, List.sum_cons]

/-- On a non-empty buffer of finite samples, `calculate_rms_dbfs` computes
exactly the spec's formula, with no domain error: the argument of the
logarithm is strictly positive thanks to the epsilon. -/
theorem calc_rms_dbfs_map_fin (l : List ℝ) (h : 1 ≤ l.length) :
    calculate_rms_dbfs (l.map RVal.fin) = RVal.fin (spec_level l) := by
  have hmap : (l.map RVal.fin).map RVal.sq = l.map fun x => RVal.fin (x ^ 2) := by
    rw [List.map_map]; rfl
  have hsum := RVsum_map_fin l fun x => x ^ 2
  have hlen : (l.map fun x => RVal.fin (x ^ 2)).length = l.length := by
    simp [List.length_map]
  have hlen0 : ¬ ((l.map RVal.fin).map RVal.sq).length = 0 := by
    simp only [List.length_map]
    omega
  have hS : 0 ≤ (l.map fun x => x ^ 2).sum :=
    List.sum_nonneg fun x hx => by
      rcases List.mem_map.mp hx with ⟨a, _, rfl⟩
      exact sq_nonneg a
  have hm : 0 ≤ (l.map fun x => x ^ 2).sum / (l.length : ℝ) :=
    div_nonneg hS (Nat.cast_nonneg _)
  have hsqrt : 0 ≤ Real.sqrt ((l.map fun x => x ^ 2).sum / (l.length : ℝ)) :=
    Real.sqrt_nonneg _
  have harg : 0 < Real.sqrt ((l.map fun x => x ^ 2).sum / (l.length : ℝ)) + 1e-10 := by
    have : (0 : ℝ) < 1e-10 := by norm_num
    linarith
  show (npLog10 ((npSqrt (npMean ((l.map RVal.fin).map RVal.sq))).add
      (RVal.fin 1e-10))).scale 20 = RVal.fin (spec_level l)
  rw [npMean, if_neg hlen0, hmap, hsum, hlen]
  show (npLog10 ((npSqrt (RVal.fin ((l.map fun x => x ^ 2).sum / (l.length : ℝ)))).add
      (RVal.fin 1e-10))).scale 20 = RVal.fin (spec_level l)
  rw [npSqrt, if_neg (not_lt.mpr hm)]
  show (npLog10 (RVal.fin (Real.sqrt ((l.map fun x => x ^ 2).sum / (l.length : ℝ))
      + 1e-10))).scale 20 = RVal.fin (spec_level l)
  rw [npLog10, if_neg (not_lt.mpr harg.le), if_neg harg.ne']
  rfl

/-- Value of `log10` at the epsilon constant. -/
theorem logb_ten_epsilon : Real.logb 10 1e-10 = -10 := by
  have h2 : ((10 : ℝ) ^ (10 : ℝ)) = 10 ^ (10 : ℕ) := by
    rw [← Real.rpow_natCast 10 10]
    norm_num
  have h : (1e-10 : ℝ) = (10 : ℝ) ^ (-10 : ℝ) := by
    rw [Real.rpow_neg (by norm_num : (0 : ℝ) ≤ 10), h2]
    norm_num
  rw [h, Real.logb_rpow (by norm_num) (by norm_num)]

/-- On an all-zero buffer the spec formula evaluates to exactly -200. -/
theorem spec_level_replicate_zero (n : ℕ) :
    spec_level (List.replicate n 0) = -200 := by
  unfold spec_level
  have hm : (List.replicate n (0 : ℝ)).map (fun x => x ^ 2) = List.replicate n 0 := by
    simp [List.map_replicate]
  rw [hm, List.sum_replicate]
  simp only [smul_zero, zero_div, Real.sqrt_zero, zero_add]
  rw [logb_ten_epsilon]
  norm_num

/-- On an all-zero buffer of positive length the estimator returns
exactly -200. -/
theorem calc_rms_replicate_zero (n : ℕ) (hn : 1 ≤ n) :
    calculate_rms_dbfs (List.replicate n (RVal.fin 0)) = RVal.fin (-200) := by
  have hrep : List.replicate n (RVal.fin 0) = (List.replicate n (0 : ℝ)).map RVal.fin := by
    simp [List.map_replicate]
  rw [hrep, calc_rms_dbfs_map_fin _ (by simpa using hn), spec_level_replicate_zero n]

/-- C4: on every non-empty buffer of finite samples the estimator returns
exactly `20 * log10(rms + 1e-10)` with `rms` the root-mean-square (a
finite value, never a domain error), and on the all-zero buffer of any
positive length it returns exactly -200, a large negative but finite
value. -/
theorem estimator_formula_and_silence :
    (∀ l : List ℝ, 1 ≤ l.length →
      calculate_rms_dbfs (l.map RVal.fin) = RVal.fin (spec_level l)) ∧
    (∀ n : ℕ, 1 ≤ n →
      calculate_rms_dbfs (List.replicate n (RVal.fin 0)) = RVal.fin (-200)) :=
  ⟨calc_rms_dbfs_map_fin, calc_rms_replicate_zero⟩

/-- C4 witness: the singleton zero buffer evaluates to -200. -/
theorem estimator_formula_and_silence_witness :
    calculate_rms_dbfs (List.replicate 1 (RVal.fin 0)) = RVal.fin (-200) :=
  estimator_formula_and_silence.2 1 (by norm_num)

/-- C9: on every non-empty buffer whose samples lie in [-1, 1] the
estimator returns a finite value bounded above by
`20 * log10(1 + 1e-10)` (the full-scale RMS bound), and the all-zero
buffer yields the finite, very negative value -200 rather than a domain
error. -/
theorem estimator_upper_bound :
    (∀ l : List ℝ, 1 ≤ l.length → (∀ a ∈ l, -1 ≤ a ∧ a ≤ 1) →
      calculate_rms_dbfs (l.map RVal.fin) = RVal.fin (spec_level l) ∧
      spec_level l ≤ 20 * Real.logb 10 (1 + 1e-10)) ∧
    (∀ n : ℕ, 1 ≤ n →
      calculate_rms_dbfs (List.replicate n (RVal.fin 0)) = RVal.fin (-200) ∧
      (-200 : ℝ) < -100) := by
  constructor
  · intro l hlen hb
    refine ⟨calc_rms_dbfs_map_fin l hlen, ?_⟩
    have hS : (l.map fun x => x ^ 2).sum ≤ (l.length : ℝ) := by
      have hle : ∀ x ∈ l.map fun x => x ^ 2, x ≤ (1 : ℝ) := by
        intro x hx
        rcases List.mem_map.mp hx with ⟨a, ha, rfl⟩
        rcases hb a ha with ⟨h1, h2⟩
        exact (sq_le_one_iff_abs_le_one a).mpr (abs_le.mpr ⟨h1, h2⟩)
      have := List.sum_le_card_nsmul (l.map fun x => x ^ 2) 1 hle
      simpa [List.length_map, nsmul_eq_mul] using this
    have hlpos : (0 : ℝ) < l.length := by
      have : 0 < l.length := by omega
      exact_mod_cast this
    have hmean : (l.map fun x => x ^ 2).sum / (l.length : ℝ) ≤ 1 :=
      (div_le_one hlpos).mpr hS
    have hsqrt : Real.sqrt ((l.map fun x => x ^ 2).sum / (l.length : ℝ)) ≤ 1 :=
      Real.sqrt_le_one.mpr hmean
    have harg : (0 : ℝ) < Real.sqrt ((l.map fun x => x ^ 2).sum / (l.length : ℝ)) + 1e-10 := by
      have h0 : 0 ≤ Real.sqrt ((l.map fun x => x ^ 2).sum / (l.length : ℝ)) :=
        Real.sqrt_nonneg _
      have : (0 : ℝ) < 1e-10 := by norm_num
      linarith
    have hlog := Real.logb_le_logb_of_le (by norm_num : (1 : ℝ) < 10) harg
      (by linarith :
        Real.sqrt ((l.map fun x => x ^ 2).sum / (l.length : ℝ)) + 1e-10 ≤ 1 + 1e-10)
    unfold spec_level
    have h20 : (0 : ℝ) ≤ 20 := by norm_num
    exact mul_le_mul_of_nonneg_left hlog h20
  · intro n hn
    exact ⟨calc_rms_replicate_zero n hn, by norm_num⟩

/-- C9 witness: the singleton full-scale buffer `[1.0]` satisfies the
sample-range hypothesis, and the singleton zero buffer case at n = 1. -/
theorem estimator_upper_bound_witness :
    (calculate_rms_dbfs ([(1 : ℝ)].map RVal.fin) = RVal.fin (spec_level [(1 : ℝ)]) ∧
      spec_level [(1 : ℝ)] ≤ 20 * Real.logb 10 (1 + 1e-10)) ∧
    (calculate_rms_dbfs (List.replicate 1 (RVal.fin 0)) = RVal.fin (-200) ∧
      (-200 : ℝ) < -100) :=
  ⟨estimator_upper_bound.1 [(1 : ℝ)] (by norm_num)
      (by intro a ha; rw [List.mem_singleton.mp ha]; norm_num),
    estimator_upper_bound.2 1 (by norm_num)⟩

/-- Function `pyInt` is the floor on nonnegative inputs. -/
theorem pyInt_eq_floor {x : ℝ} (h : 0 ≤ x) : pyInt x = ⌊x⌋ := if_pos h

/-- The clamped amplitude lies in [-1, 1]. -/
theorem clampAmp_bounds (a : ℝ) : -1 ≤ clampAmp a ∧ clampAmp a ≤ 1 :=
  ⟨le_max_left _ _, max_le (by norm_num) (min_le_left _ _)⟩

/-- The vertical pixel coordinate always lands in [0, H]. -/
theorem pyInt_y_bounds (H : ℕ) (a : ℝ) :
    0 ≤ pyInt ((H : ℝ) / 2 - clampAmp a * ((H : ℝ) / 2)) ∧
    pyInt ((H : ℝ) / 2 - clampAmp a * ((H : ℝ) / 2)) ≤ (H : ℤ) := by
  have hH : (0 : ℝ) ≤ (H : ℝ) / 2 := by positivity
  obtain ⟨hc1, hc2⟩ := clampAmp_bounds a
  have hub : clampAmp a * ((H : ℝ) / 2) ≤ (H : ℝ) / 2 := by nlinarith
  have hlb : -((H : ℝ) / 2) ≤ clampAmp a * ((H : ℝ) / 2) := by nlinarith
  have h0 : 0 ≤ (H : ℝ) / 2 - clampAmp a * ((H : ℝ) / 2) := by linarith
  have hH' : (H : ℝ) / 2 - clampAmp a * ((H : ℝ) / 2) ≤ (H : ℝ) := by linarith
  rw [pyInt_eq_floor h0]
  refine ⟨Int.floor_nonneg.mpr h0, ?_⟩
  have hfl := Int.floor_le_floor hH'
  rwa [Int.floor_natCast] at hfl

/-- For more than one sample, `generate_waveform_points` is exactly the
per-sample map over the enumerated buffer (no duplication branch). -/
theorem generate_eq_map (l : List ℝ) (W H : ℕ) (h : 1 < l.length) :
    generate_waveform_points l W H =
      l.enum.map fun p =>
        (pyInt (p.1 * ((W : ℝ) / ((l.length : ℝ) - 1))),
         pyInt ((H : ℝ) / 2 - clampAmp p.2 * ((H : ℝ) / 2))) := by
  simp only [generate_waveform_points, List.length_map, List.enum_length]
  rw [if_neg (by omega : ¬ l.length = 0), if_pos h, if_neg (by omega : ¬ l.length = 1)]

/-- A single sample produces the duplicated point at x = 0. -/
theorem generate_singleton (a : ℝ) (W H : ℕ) :
    generate_waveform_points [a] W H =
      [(0, pyInt ((H : ℝ) / 2 - clampAmp a * ((H : ℝ) / 2))),
       (0, pyInt ((H : ℝ) / 2 - clampAmp a * ((H : ℝ) / 2)))] := by
  simp only [generate_waveform_points, List.length_singleton, List.enum_singleton,
    List.map_singleton]
  norm_num
  norm_num [pyInt]

/-- C6: shape of the projection for N > 1: exactly one point per sample,
point i at `(floor(i*W/(N-1)), floor(H/2 - clamp(a_i)*H/2))`, first
x-coordinate 0, last x-coordinate `floor(W)`, and every y-coordinate
within [0, H]. -/
theorem projector_shape (l : List ℝ) (W H : ℕ) (h : 1 < l.length) :
    (generate_waveform_points l W H).length = l.length ∧
    (∀ i : ℕ, i < l.length →
      (generate_waveform_points l W H)[i]? =
        some (⌊(i : ℝ) * (W : ℝ) / ((l.length : ℝ) - 1)⌋,
              ⌊(H : ℝ) / 2 - clampAmp (l.getD i 0) * ((H : ℝ) / 2)⌋)) ∧
    ((generate_waveform_points l W H)[0]?.map Prod.fst = some 0) ∧
    ((generate_waveform_points l W H)[l.length - 1]?.map Prod.fst = some ⌊(W : ℝ)⌋) ∧
    (∀ p ∈ generate_waveform_points l W H, 0 ≤ p.2 ∧ p.2 ≤ (H : ℤ)) := by
  have hmap := generate_eq_map l W H h
  have hd : (0 : ℝ) < (l.length : ℝ) - 1 := by
    have : (1 : ℝ) < (l.length : ℝ) := by exact_mod_cast h
    linarith
  have hget : ∀ i : ℕ, i < l.length →
      (generate_waveform_points l W H)[i]? =
        some (⌊(i : ℝ) * (W : ℝ) / ((l.length : ℝ) - 1)⌋,
              ⌊(H : ℝ) / 2 - clampAmp (l.getD i 0) * ((H : ℝ) / 2)⌋) := by
    intro i hi
    rw [hmap, List.getElem?_map, List.getElem?_enum, List.getElem?_eq_getElem hi]
    simp only [Option.map_some']
    have hx0 : 0 ≤ (i : ℝ) * ((W : ℝ) / ((l.length : ℝ) - 1)) :=
      mul_nonneg (Nat.cast_nonneg i) (div_nonneg (Nat.cast_nonneg W) hd.le)
    rw [pyInt_eq_floor hx0]
    have hy0 : 0 ≤ (H : ℝ) / 2 - clampAmp l[i] * ((H : ℝ) / 2) := by
      have hH : (0 : ℝ) ≤ (H : ℝ) / 2 := by positivity
      obtain ⟨hc1, hc2⟩ := clampAmp_bounds l[i]
      nlinarith
    rw [pyInt_eq_floor hy0]
    rw [List.getD_eq_getElem l 0 hi, mul_div_assoc]
  refine ⟨?_, hget, ?_, ?_, ?_⟩
  · rw [hmap]; simp [List.length_map, List.enum_length]
  · rw [hget 0 (by omega)]
    norm_num
  · rw [hget (l.length - 1) (by omega)]
    have hcast : ((l.length - 1 : ℕ) : ℝ) = (l.length : ℝ) - 1 := by
      rw [Nat.cast_sub (by omega)]
      norm_num
    rw [hcast]
    have hW : ((l.length : ℝ) - 1) * (W : ℝ) / ((l.length : ℝ) - 1) = (W : ℝ) := by
      rw [mul_comm, mul_div_assoc, div_self hd.ne', mul_one]
    rw [hW]
    rfl
  · intro p hp
    rw [hmap] at hp
    rcases List.mem_map.mp hp with ⟨q, hq, rfl⟩
    exact pyInt_y_bounds H q.2

/-- C6 witness: the two-sample buffer `[0, 1]` in a 4 x 2 viewport yields
two points. -/
theorem projector_shape_witness :
    (generate_waveform_points [(0 : ℝ), 1] 4 2).length = 2 :=
  (projector_shape [(0 : ℝ), 1] 4 2 (by norm_num)).1

/-- C7: degenerate cases: the empty buffer projects to the empty sequence;
a single-sample buffer projects to exactly two identical points; and any
non-empty buffer yields at least two points for the draw call. -/
theorem projector_degenerate :
    (∀ W H : ℕ, generate_waveform_points [] W H = []) ∧
    (∀ (a : ℝ) (W H : ℕ),
      generate_waveform_points [a] W H =
        [(0, pyInt ((H : ℝ) / 2 - clampAmp a * ((H : ℝ) / 2))),
         (0, pyInt ((H : ℝ) / 2 - clampAmp a * ((H : ℝ) / 2)))]) ∧
    (∀ (l : List ℝ) (W H : ℕ), l ≠ [] →
      2 ≤ (generate_waveform_points l W H).length) := by
  refine ⟨fun W H => rfl, generate_singleton, fun l W H hl => ?_⟩
  cases l with
  | nil => exact absurd rfl hl
  | cons a t =>
    cases t with
    | nil =>
      rw [generate_singleton]
      norm_num
    | cons b t2 =>
      have h2 : 1 < (a :: b :: t2).length := by simp
      rw [generate_eq_map _ _ _ h2]
      simp only [List.length_map, List.enum_length, List.length_cons]
      omega

/-- C7 witness: the singleton zero buffer yields at least two points. -/
theorem projector_degenerate_witness :
    2 ≤ (generate_waveform_points [(0 : ℝ)] 5 3).length :=
  projector_degenerate.2.2 [(0 : ℝ)] 5 3 (by simp)

end

end Waveform
